import Mathlib

/-!
Verification of the SSE stream client (`useAgentStream`) of web-legal-mvp.

The embedding models, from the source hook:
  * the JavaScript values produced by `JSON.parse` (`JSVal`, `jsParse`);
  * the `StreamState` record and its initial value;
  * the per-frame line scanning (`parseFrame`), the event dispatcher
    (`dispatchEvent`) and the full per-message step (`processMessage`);
  * the chunk loop: splitting the pending buffer on the blank-line
    terminator (`splitNN`) and folding chunks (`feedChunks`);
  * the lifecycle operations `stopStream`, `reset`, the prelude of
    `startStream` (`startInit`), and the terminal continuations of the
    read loop (`finishRun`);
  * the byte layer: UTF-8 encoding and the incremental text decoder
    (`decodeAll`, `feedBytes`).

Strings are modelled as `List Char`; bytes as `Nat`.
-/

/-- Model of the JavaScript values that `JSON.parse` can return for the
payloads this client sees.  Numbers are kept as their source lexeme: the
dispatcher never inspects numeric magnitude, only the `typeof` class. -/
inductive JSVal : Type where
  | str : List Char → JSVal
  | num : List Char → JSVal
  | bool : Bool → JSVal
  | null : JSVal
  | arr : List JSVal → JSVal
  | obj : List (List Char × JSVal) → JSVal
deriving Repr

/-- JSON whitespace (also the common JavaScript trim characters used by the
frames in this protocol). -/
def isWS (c : Char) : Bool :=
  c = ' ' || c = '\t' || c = '\n' || c = '\r'

/-- Drop leading JSON whitespace. -/
def skipWS (cs : List Char) : List Char :=
  cs.dropWhile isWS

/-- The `{` character, kept as a named constant. -/
def lbrace : Char := Char.ofNat 123

/-- The `}` character, kept as a named constant. -/
def rbrace : Char := Char.ofNat 125

/-- Value of a hexadecimal digit. -/
def hexVal (c : Char) : Option Nat :=
  if '0' ≤ c ∧ c ≤ '9' then some (c.toNat - '0'.toNat)
  else if 'a' ≤ c ∧ c ≤ 'f' then some (c.toNat - 'a'.toNat + 10)
  else if 'A' ≤ c ∧ c ≤ 'F' then some (c.toNat - 'A'.toNat + 10)
  else none

/-- Single-character JSON string escapes. -/
def escChar (c : Char) : Option Char :=
  if c = '"' then some '"'
  else if c = '\\' then some '\\'
  else if c = '/' then some '/'
  else if c = 'b' then some (Char.ofNat 8)
  else if c = 'f' then some (Char.ofNat 12)
  else if c = 'n' then some '\n'
  else if c = 'r' then some '\r'
  else if c = 't' then some '\t'
  else none

/-- Body of a JSON string, after the opening quote: returns the decoded
characters and the input remaining after the closing quote. -/
def parseStrBody : List Char → Option (List Char × List Char)
  | [] => none
  | c :: rest =>
    if c = '"' then some ([], rest)
    else if c = '\\' then
      match rest with
      | [] => none
      | e :: rest2 =>
        if e = 'u' then
          match rest2 with
          | h1 :: h2 :: h3 :: h4 :: rest3 =>
            match hexVal h1, hexVal h2, hexVal h3, hexVal h4 with
            | some a, some b, some c2, some d =>
              (parseStrBody rest3).map
                (fun p => (Char.ofNat (((a * 16 + b) * 16 + c2) * 16 + d) :: p.1, p.2))
            | _, _, _, _ => none
          | _ => none
        else
          match escChar e with
          | some ec => (parseStrBody rest2).map (fun p => (ec :: p.1, p.2))
          | none => none
    else if c.toNat < 32 then none
    else (parseStrBody rest).map (fun p => (c :: p.1, p.2))

/-- Exponent tail of a JSON number, after the `e`/`E`. -/
def expTail (cs : List Char) : Option (List Char × List Char) :=
  let (sg, cs1) :=
    match cs with
    | '+' :: r => (['+'], r)
    | '-' :: r => (['-'], r)
    | _ => (([] : List Char), cs)
  let ds := cs1.takeWhile Char.isDigit
  if ds = [] then none else some (sg ++ ds, cs1.dropWhile Char.isDigit)

/-- A JSON number lexeme, returned verbatim together with the rest of the
input. -/
def parseNum (cs : List Char) : Option (List Char × List Char) :=
  let (sign, cs1) :=
    if cs.head? = some '-' then ((['-'] : List Char), cs.tail) else ([], cs)
  let ds := cs1.takeWhile Char.isDigit
  let cs2 := cs1.dropWhile Char.isDigit
  if ds = [] then none
  else if ds.head? = some '0' ∧ 1 < ds.length then none
  else
    let frOpt : Option (List Char × List Char) :=
      match cs2 with
      | '.' :: r =>
        let fs := r.takeWhile Char.isDigit
        if fs = [] then none else some ('.' :: fs, r.dropWhile Char.isDigit)
      | _ => some ([], cs2)
    match frOpt with
    | none => none
    | some (frl, cs3) =>
      match cs3 with
      | e :: r =>
        if e = 'e' ∨ e = 'E' then
          match expTail r with
          | none => none
          | some (el, cs4) => some (sign ++ ds ++ frl ++ e :: el, cs4)
        else some (sign ++ ds ++ frl, cs3)
      | [] => some (sign ++ ds ++ frl, [])

mutual

/-- Recursive-descent model of `JSON.parse`: one value, fuelled.  Faithful to
the JSON grammar on the payloads this client receives; `\u` escapes that form
surrogate pairs are not recombined. -/
def parseVal : Nat → List Char → Option (JSVal × List Char)
  | 0, _ => none
  | Nat.succ fuel, cs =>
    let cs := skipWS cs
    match cs with
    | [] => none
    | c :: rest =>
      if c = '"' then
        (parseStrBody rest).map (fun p => (JSVal.str p.1, p.2))
      else if c = lbrace then parseMembers fuel rest true
      else if c = '[' then parseElems fuel rest true
      else if ['t', 'r', 'u', 'e'].isPrefixOf cs then some (JSVal.bool true, cs.drop 4)
      else if ['f', 'a', 'l', 's', 'e'].isPrefixOf cs then some (JSVal.bool false, cs.drop 5)
      else if ['n', 'u', 'l', 'l'].isPrefixOf cs then some (JSVal.null, cs.drop 4)
      else (parseNum cs).map (fun p => (JSVal.num p.1, p.2))

/-- Elements of a JSON array, after the `[` (when `first` is true) or after a
`,`. -/
def parseElems : Nat → List Char → Bool → Option (JSVal × List Char)
  | 0, _, _ => none
  | Nat.succ fuel, cs, first =>
    let cs := skipWS cs
    match cs with
    | [] => none
    | c :: rest =>
      if first ∧ c = ']' then some (JSVal.arr [], rest)
      else
        match parseVal fuel cs with
        | none => none
        | some (v, cs2) =>
          match skipWS cs2 with
          | [] => none
          | c2 :: r2 =>
            if c2 = ',' then
              match parseElems fuel r2 false with
              | some (JSVal.arr vs, cs3) => some (JSVal.arr (v :: vs), cs3)
              | _ => none
            else if c2 = ']' then some (JSVal.arr [v], r2)
            else none

/-- Members of a JSON object, after the `{` (when `first` is true) or after a
`,`. -/
def parseMembers : Nat → List Char → Bool → Option (JSVal × List Char)
  | 0, _, _ => none
  | Nat.succ fuel, cs, first =>
    let cs := skipWS cs
    match cs with
    | [] => none
    | c :: rest =>
      if first ∧ c = rbrace then some (JSVal.obj [], rest)
      else if c = '"' then
        match parseStrBody rest with
        | none => none
        | some (k, cs2) =>
          match skipWS cs2 with
          | [] => none
          | c2 :: r2 =>
            if c2 = ':' then
              match parseVal fuel r2 with
              | none => none
              | some (v, cs3) =>
                match skipWS cs3 with
                | [] => none
                | c3 :: r3 =>
                  if c3 = ',' then
                    match parseMembers fuel r3 false with
                    | some (JSVal.obj kvs, cs4) => some (JSVal.obj ((k, v) :: kvs), cs4)
                    | _ => none
                  else if c3 = rbrace then some (JSVal.obj [(k, v)], r3)
                  else none
            else none
      else none

end

/-- Model of `JSON.parse(eventData)`: parse one value and require only
whitespace to remain, as the JavaScript parser does. -/
def jsParse (cs : List Char) : Option JSVal :=
  match parseVal (2 * cs.length + 2) cs with
  | some (v, rest) => if skipWS rest = [] then some v else none
  | none => none

/-- The `StreamState` record of the hook (`types.ts` / `initialState`).
`citations` holds the parsed JavaScript values that the source casts to
`Citation`. -/
structure StreamState : Type where
  isLoading : Bool
  error : Option (List Char)
  status : Option (List Char)
  reasoning : Option (List Char)
  citations : List JSVal
  tokens : List Char
  isComplete : Bool
deriving Repr

/-- The `initialState` constant of the hook. -/
def initialState : StreamState :=
  { isLoading := false
    error := none
    status := none
    reasoning := none
    citations := []
    tokens := []
    isComplete := false }

/-- Observable effects of processing: the caller-supplied callbacks invoked by
the dispatcher, plus the `console.error` log of a malformed citation. -/
inductive Out : Type where
  | onStatus : List Char → Out
  | onReasoning : List Char → Out
  | onCitation : JSVal → Out
  | onToken : List Char → Out
  | onError : List Char → Out
  | onComplete : Option JSVal → Out
  | logCitationError : List Char → Out
deriving Repr

/-- Strip leading and trailing whitespace, as `String.prototype.trim` does on
the characters occurring in this protocol. -/
def trimChars (cs : List Char) : List Char :=
  ((cs.dropWhile isWS).reverse.dropWhile isWS).reverse

/-- Split on every `'\n'`, keeping empty segments: `message.trim().split("\n")`. -/
def splitNl : List Char → List (List Char)
  | [] => [[]]
  | '\n' :: rest => [] :: splitNl rest
  | c :: rest =>
    match splitNl rest with
    | [] => [[c]]
    | l :: ls => (c :: l) :: ls

/-- One iteration of the line loop of `startStream`: a line starting with
`event:` overwrites the event type with its trimmed remainder; a line starting
with `data:` overwrites the data with its remainder after at most one leading
space; other lines are ignored. -/
def applyLine (acc : List Char × List Char) (line : List Char) : List Char × List Char :=
  if List.isPrefixOf ("event:".toList) line then
    (trimChars (line.drop 6), acc.2)
  else if List.isPrefixOf ("data:".toList) line then
    let raw := line.drop 5
    (acc.1, if raw.head? = some ' ' then raw.tail else raw)
  else acc

/-- Extract `(eventType, eventData)` from one complete SSE message, as the
source does: trim the message, split into lines, fold the line loop. -/
def parseFrame (m : List Char) : List Char × List Char :=
  (splitNl (trimChars m)).foldl applyLine ([], [])

/-- `JSON.parse` with the source's fallback: on parse failure the raw text is
used as a JavaScript string. -/
def decodedVal (d : List Char) : JSVal :=
  (jsParse d).getD (JSVal.str d)

/-- The `typeof parsedData === "string" ? parsedData : eventData` idiom used
for `status`, `reasoning`, `token` and `error` payloads. -/
def textOf (d : List Char) : List Char :=
  match decodedVal d with
  | JSVal.str s => s
  | _ => d

/-- The `typeof parsedData === "object" && parsedData !== null` guard.  In
JavaScript arrays and objects both have `typeof` `"object"`; `null` is
excluded by the explicit comparison. -/
def isObjVal : JSVal → Bool
  | JSVal.arr _ => true
  | JSVal.obj _ => true
  | _ => false

/-- The `switch (eventType)` of `startStream`: state transition plus emitted
callbacks for one dispatched event.  Unknown kinds fall through with no
effect. -/
def dispatchEvent (eventType eventData : List Char) (s : StreamState) :
    StreamState × List Out :=
  if eventType = "status".toList then
    ({ s with status := some (textOf eventData) }, [Out.onStatus (textOf eventData)])
  else if eventType = "reasoning".toList then
    ({ s with reasoning := some (textOf eventData) }, [Out.onReasoning (textOf eventData)])
  else if eventType = "citation".toList then
    if isObjVal (decodedVal eventData) then
      ({ s with citations := s.citations ++ [decodedVal eventData] },
       [Out.onCitation (decodedVal eventData)])
    else (s, [Out.logCitationError eventData])
  else if eventType = "token".toList then
    ({ s with tokens := s.tokens ++ textOf eventData }, [Out.onToken (textOf eventData)])
  else if eventType = "error".toList then
    ({ s with error := some (textOf eventData), isLoading := false },
     [Out.onError (textOf eventData)])
  else if eventType = "done".toList then
    ({ s with isLoading := false, isComplete := true },
     [Out.onComplete (if isObjVal (decodedVal eventData) then some (decodedVal eventData) else none)])
  else (s, [])

/-- Processing of one complete message: extract the frame; the guard
`if (!eventType || !eventData) continue;` silently discards a frame whose
event type or data is empty; otherwise dispatch. -/
def processMessage (m : List Char) (s : StreamState) : StreamState × List Out :=
  let et := (parseFrame m).1
  let ed := (parseFrame m).2
  if et = [] ∨ ed = [] then (s, [])
  else dispatchEvent et ed s

/-- Processing of a list of complete messages in order, accumulating the
emitted callbacks. -/
def processMessages (ms : List (List Char)) (s : StreamState) : StreamState × List Out :=
  match ms with
  | [] => (s, [])
  | m :: rest =>
    let r1 := processMessage m s
    let r2 := processMessages rest r1.1
    (r2.1, r1.2 ++ r2.2)

/-- `buffer.split("\n\n")` followed by `messages.pop()`: the complete messages
(all segments but the last) and the retained buffer (the last segment).  The
recursion scans for the leftmost `"\n\n"`, as `String.prototype.split` does. -/
def splitNN : List Char → List (List Char) × List Char
  | [] => ([], [])
  | '\n' :: '\n' :: rest =>
    ([] :: (splitNN rest).1, (splitNN rest).2)
  | c :: rest =>
    match splitNN rest with
    | ([], b) => ([], c :: b)
    | (m :: ms, b) => ((c :: m) :: ms, b)

/-- The chunk loop of `startStream` at text level: append each chunk to the
buffer, split off the complete messages, keep the last segment as the new
buffer, process the messages.  Returns the final buffer, state and outputs. -/
def feedChunks : List (List Char) → List Char → StreamState → List Char × StreamState × List Out
  | [], buf, s => (buf, s, [])
  | c :: cs, buf, s =>
    let sp := splitNN (buf ++ c)
    let r1 := processMessages sp.1 s
    let r2 := feedChunks cs sp.2 r1.1
    (r2.1, r2.2.1, r1.2 ++ r2.2.2)

/-- `stopStream`: aborts the controller and cancels the reader (resource
effects outside the state), then sets `isLoading` to `false` and nothing
else. -/
def stopStream (s : StreamState) : StreamState :=
  { s with isLoading := false }

/-- `reset`: restores the initial state. -/
def reset (_ : StreamState) : StreamState :=
  initialState

/-- The synchronous prelude of `startStream`: `stopStream(); reset();` then
`setState(prev => ({ ...prev, isLoading: true }))`. -/
def startInit (s : StreamState) : StreamState :=
  { reset (stopStream s) with isLoading := true }

/-- How a read loop ends: body exhaustion (`done` from the reader), an abort
caught as `AbortError`, or any other failure (network, non-ok response,
missing body) with its message. -/
inductive Terminal : Type where
  | bodyEnd : Terminal
  | aborted : Terminal
  | failed : List Char → Terminal
deriving Repr

/-- The terminal continuation of `startStream` for each way the loop ends:
exhaustion sets `isLoading=false, isComplete=true`; a caught `AbortError`
only clears `isLoading` and returns; any other failure records the message,
clears `isLoading` and invokes `onError`. -/
def finishRun : Terminal → StreamState → StreamState × List Out
  | Terminal.bodyEnd, s => ({ s with isLoading := false, isComplete := true }, [])
  | Terminal.aborted, s => ({ s with isLoading := false }, [])
  | Terminal.failed msg, s =>
    ({ s with error := some msg, isLoading := false }, [Out.onError msg])

/-- A full run of the read loop from a given starting state: process the
chunks, then apply the terminal continuation.  The leftover buffer is
discarded, as in the source. -/
def runStreamFrom (s : StreamState) (chunks : List (List Char)) (t : Terminal) :
    StreamState × List Out :=
  let r := feedChunks chunks [] s
  let f := finishRun t r.2.1
  (f.1, r.2.2 ++ f.2)

/-- A full `startStream` turn beginning from the freshly initialised state. -/
def runStream (chunks : List (List Char)) (t : Terminal) : StreamState × List Out :=
  runStreamFrom (startInit initialState) chunks t

/-- Whether a byte is a UTF-8 continuation byte. -/
def isCont (b : Nat) : Bool :=
  128 ≤ b ∧ b < 192

/-- UTF-8 encoding of one character, as in the standard encoder used by the
transport. -/
def utf8EncodeChar (c : Char) : List Nat :=
  let n := c.toNat
  if n < 128 then [n]
  else if n < 2048 then [192 + n / 64, 128 + n % 64]
  else if n < 65536 then [224 + n / 4096, 128 + (n / 64) % 64, 128 + n % 64]
  else [240 + n / 262144, 128 + (n / 4096) % 64, 128 + (n / 64) % 64, 128 + n % 64]

/-- UTF-8 encoding of a text. -/
def utf8Encode (s : List Char) : List Nat :=
  (s.map utf8EncodeChar).flatten

/-- Classification of a byte as the first byte of a UTF-8 sequence: the
initial accumulator bits and the number of continuation bytes that must
follow; `none` for a byte that can never start a sequence. -/
def leadInfo (b : Nat) : Option (Nat × Nat) :=
  if b < 128 then some (b, 0)
  else if b < 192 then none
  else if b < 224 then some (b - 192, 1)
  else if b < 240 then some (b - 224, 2)
  else if b < 248 then some (b - 240, 3)
  else none

/-- Whether every byte of a list is a continuation byte. -/
def contAll (bs : List Nat) : Bool :=
  bs.all isCont

/-- Fold the payload bits of continuation bytes into the accumulator. -/
def cpOf (acc : Nat) (cont : List Nat) : Nat :=
  cont.foldl (fun a b => a * 64 + (b - 128)) acc

/-- Greedy decoding of a byte sequence, modelling the stateful `TextDecoder`
used with `\x7b stream: true \x7d`: decoded characters plus the trailing
bytes of a not-yet-complete sequence, carried to the next chunk.  On the
valid encodings the theorems use it agrees with the platform decoder; bytes
that can never begin or correctly continue a sequence are skipped rather
than replaced. -/
def decodeAll : List Nat → List Char × List Nat
  | [] => ([], [])
  | b1 :: bs =>
    match leadInfo b1 with
    | none => decodeAll bs
    | some (acc, k) =>
      if bs.length < k then ([], b1 :: bs)
      else if contAll (bs.take k) then
        ((Char.ofNat (cpOf acc (bs.take k))) :: (decodeAll (bs.drop k)).1,
         (decodeAll (bs.drop k)).2)
      else decodeAll bs
termination_by l => l.length
decreasing_by all_goals (simp_wf; try omega)

/-- The chunk loop of `startStream` at byte level: each received byte chunk is
decoded incrementally (pending undecoded bytes carried across chunks), the
text is appended to the buffer, complete messages are split off and processed.
Returns the final decoder pending bytes, buffer, state and outputs. -/
def feedBytes : List (List Nat) → List Nat → List Char → StreamState →
    List Nat × List Char × StreamState × List Out
  | [], p, buf, s => (p, buf, s, [])
  | bs :: rest, p, buf, s =>
    let d := decodeAll (p ++ bs)
    let sp := splitNN (buf ++ d.1)
    let r1 := processMessages sp.1 s
    let r2 := feedBytes rest d.2 sp.2 r1.1
    (r2.1, r2.2.1, r2.2.2.1, r1.2 ++ r2.2.2.2)

theorem splitNN_cons2 (c r1 : Char) (rest : List Char) (h : ¬(c = '\n' ∧ r1 = '\n')) :
    splitNN (c :: r1 :: rest) =
      match splitNN (r1 :: rest) with
      | ([], b) => ([], c :: b)
      | (m :: ms, b) => ((c :: m) :: ms, b) := by
  rw [splitNN.eq_def]
  split
  · rename_i heq; exact absurd heq (by simp)
  · rename_i heq
    injection heq with h1 h2
    injection h2 with h2a _
    exact absurd ⟨h1, h2a⟩ h
  · rename_i heq
    injection heq with h1 h2
    subst h1
    subst h2
    rfl

theorem splitNN_one (c : Char) : splitNN [c] = ([], [c]) := by
  rw [splitNN.eq_def]
  split
  · rename_i heq; exact absurd heq (by simp)
  · rename_i heq; exact absurd heq (by simp)
  · rename_i heq
    injection heq with h1 h2
    subst h1; subst h2
    simp [splitNN]

theorem splitNN_nil_msgs : ∀ (x : List Char), (splitNN x).1 = [] → (splitNN x).2 = x := by
  intro x
  induction x using splitNN.induct with
  | case1 => simp [splitNN]
  | case2 rest ih => simp [splitNN]
  | case3 c rest h b heq ih =>
    intro _
    match rest, heq with
    | [], heq =>
      simp [splitNN] at heq
      simp [splitNN, heq]
    | r1 :: rest', heq =>
      have hne : ¬(c = '\n' ∧ r1 = '\n') := fun hp => h rest' hp.1 (by rw [hp.2])
      rw [splitNN_cons2 c r1 rest' hne, heq]
      have hb : b = r1 :: rest' := by
        have := ih (by rw [heq])
        rw [heq] at this
        exact this
      rw [hb]
  | case4 c rest h m ms b heq ih =>
    intro hcontra
    match rest, heq with
    | [], heq => simp [splitNN] at heq
    | r1 :: rest', heq =>
      have hne : ¬(c = '\n' ∧ r1 = '\n') := fun hp => h rest' hp.1 (by rw [hp.2])
      rw [splitNN_cons2 c r1 rest' hne, heq] at hcontra
      simp at hcontra

theorem splitNN_append : ∀ (u v : List Char),
    splitNN (u ++ v) =
      ((splitNN u).1 ++ (splitNN ((splitNN u).2 ++ v)).1,
       (splitNN ((splitNN u).2 ++ v)).2) := by
  intro u
  induction u using splitNN.induct with
  | case1 => intro v; simp [splitNN]
  | case2 rest ih =>
    intro v
    have e2 : ∀ (x : List Char), splitNN ('\n' :: '\n' :: x) = ([] :: (splitNN x).1, (splitNN x).2) := by
      intro x; simp [splitNN]
    rw [List.cons_append, List.cons_append, e2, e2, ih]
    simp
  | case3 c rest h b heq ih =>
    intro v
    have hb : b = rest := by
      have := splitNN_nil_msgs rest (by rw [heq])
      rw [heq] at this; exact this
    have hsplit : splitNN (c :: rest) = ([], c :: rest) := by
      cases rest with
      | nil => exact splitNN_one c
      | cons r1 rest' =>
        have hne : ¬(c = '\n' ∧ r1 = '\n') := fun hp => h rest' hp.1 (by rw [hp.2])
        rw [splitNN_cons2 c r1 rest' hne, heq, hb]
    rw [hsplit]
    simp
  | case4 c rest h m ms b heq ih =>
    intro v
    cases rest with
    | nil => simp [splitNN] at heq
    | cons r1 rest' =>
      have hne : ¬(c = '\n' ∧ r1 = '\n') := fun hp => h rest' hp.1 (by rw [hp.2])
      have hsplit : splitNN (c :: r1 :: rest') = ((c :: m) :: ms, b) := by
        rw [splitNN_cons2 c r1 rest' hne, heq]
      have hih := ih v
      rw [heq] at hih
      simp only [List.cons_append] at hih ⊢
      rw [splitNN_cons2 c r1 (rest' ++ v) hne, hih, hsplit]
      simp

/-- Reconstruction of a text from the complete messages and the retained
buffer: messages re-joined with the blank-line terminator, buffer appended. -/
def joinNN (ms : List (List Char)) (b : List Char) : List Char :=
  ms.foldr (fun m acc => m ++ '\n' :: '\n' :: acc) b

theorem splitNN_joinNN : ∀ (x : List Char), joinNN (splitNN x).1 (splitNN x).2 = x := by
  intro x
  induction x using splitNN.induct with
  | case1 => simp [splitNN, joinNN]
  | case2 rest ih =>
    have e2 : splitNN ('\n' :: '\n' :: rest) = ([] :: (splitNN rest).1, (splitNN rest).2) := by
      simp [splitNN]
    rw [e2]
    simp only [joinNN, List.foldr] at *
    rw [ih]
    simp
  | case3 c rest h b heq ih =>
    have hsplit : splitNN (c :: rest) = ([], c :: b) := by
      cases rest with
      | nil =>
        simp [splitNN] at heq
        subst heq
        exact splitNN_one c
      | cons r1 rest' =>
        have hne : ¬(c = '\n' ∧ r1 = '\n') := fun hp => h rest' hp.1 (by rw [hp.2])
        rw [splitNN_cons2 c r1 rest' hne, heq]
    rw [hsplit]
    rw [heq] at ih
    simp only [joinNN, List.foldr] at *
    rw [ih]
  | case4 c rest h m ms b heq ih =>
    cases rest with
    | nil => simp [splitNN] at heq
    | cons r1 rest' =>
      have hne : ¬(c = '\n' ∧ r1 = '\n') := fun hp => h rest' hp.1 (by rw [hp.2])
      have hsplit : splitNN (c :: r1 :: rest') = ((c :: m) :: ms, b) := by
        rw [splitNN_cons2 c r1 rest' hne, heq]
      rw [hsplit]
      rw [heq] at ih
      simp only [joinNN, List.foldr] at *
      rw [List.cons_append, ih]

/-- Whether a text contains the blank-line terminator. -/
def hasNN : List Char → Bool
  | '\n' :: '\n' :: _ => true
  | _ :: rest => hasNN rest
  | [] => false

theorem hasNN_cons2 (c r1 : Char) (rest : List Char) (h : ¬(c = '\n' ∧ r1 = '\n')) :
    hasNN (c :: r1 :: rest) = hasNN (r1 :: rest) := by
  rw [hasNN.eq_def]
  split
  · rename_i heq
    injection heq with h1 h2
    injection h2 with h2a _
    exact absurd ⟨h1, h2a⟩ h
  · rename_i heq
    injection heq with h1 h2
    subst h2
    rfl
  · rename_i heq; exact absurd heq (by simp)

theorem splitNN_buffer_no_terminator : ∀ (x : List Char), hasNN (splitNN x).2 = false := by
  intro x
  induction x using splitNN.induct with
  | case1 => simp [splitNN, hasNN]
  | case2 rest ih =>
    have e2 : splitNN ('\n' :: '\n' :: rest) = ([] :: (splitNN rest).1, (splitNN rest).2) := by
      simp [splitNN]
    rw [e2]
    exact ih
  | case3 c rest h b heq ih =>
    have hsplit : splitNN (c :: rest) = ([], c :: b) := by
      cases rest with
      | nil =>
        simp [splitNN] at heq
        subst heq
        exact splitNN_one c
      | cons r1 rest' =>
        have hne : ¬(c = '\n' ∧ r1 = '\n') := fun hp => h rest' hp.1 (by rw [hp.2])
        rw [splitNN_cons2 c r1 rest' hne, heq]
    rw [hsplit]
    rw [heq] at ih
    have hb : b = rest := by
      have := splitNN_nil_msgs rest (by rw [heq])
      rw [heq] at this; exact this
    subst hb
    cases b with
    | nil => simp [hasNN]
    | cons r1 rest' =>
      have hne : ¬(c = '\n' ∧ r1 = '\n') := fun hp => h rest' hp.1 (by rw [hp.2])
      rw [hasNN_cons2 c r1 rest' hne]
      exact ih
  | case4 c rest h m ms b heq ih =>
    cases rest with
    | nil => simp [splitNN] at heq
    | cons r1 rest' =>
      have hne : ¬(c = '\n' ∧ r1 = '\n') := fun hp => h rest' hp.1 (by rw [hp.2])
      have hsplit : splitNN (c :: r1 :: rest') = ((c :: m) :: ms, b) := by
        rw [splitNN_cons2 c r1 rest' hne, heq]
      rw [hsplit]
      rw [heq] at ih
      exact ih

theorem processMessages_append (ms1 ms2 : List (List Char)) (s : StreamState) :
    processMessages (ms1 ++ ms2) s =
      ((processMessages ms2 (processMessages ms1 s).1).1,
       (processMessages ms1 s).2 ++ (processMessages ms2 (processMessages ms1 s).1).2) := by
  induction ms1 generalizing s with
  | nil => simp [processMessages]
  | cons m rest ih =>
    simp only [List.cons_append, processMessages, List.append_eq]
    rw [ih]
    simp

theorem da_nil : decodeAll [] = ([], []) := by simp [decodeAll]

theorem da_none (b1 : Nat) (bs : List Nat) (h : leadInfo b1 = none) :
    decodeAll (b1 :: bs) = decodeAll bs := by
  rw [decodeAll]
  simp [h]

theorem da_pending (b1 acc k : Nat) (bs : List Nat) (h : leadInfo b1 = some (acc, k))
    (hk : bs.length < k) :
    decodeAll (b1 :: bs) = ([], b1 :: bs) := by
  rw [decodeAll]
  simp [h, hk]

theorem da_valid (b1 acc k : Nat) (bs : List Nat) (h : leadInfo b1 = some (acc, k))
    (hk : ¬ bs.length < k) (hc : contAll (bs.take k) = true) :
    decodeAll (b1 :: bs) =
      ((Char.ofNat (cpOf acc (bs.take k))) :: (decodeAll (bs.drop k)).1,
       (decodeAll (bs.drop k)).2) := by
  rw [decodeAll]
  simp [h, hk, hc]

theorem da_invalid (b1 acc k : Nat) (bs : List Nat) (h : leadInfo b1 = some (acc, k))
    (hk : ¬ bs.length < k) (hc : ¬ contAll (bs.take k) = true) :
    decodeAll (b1 :: bs) = decodeAll bs := by
  rw [decodeAll]
  simp [h, hk, hc]

theorem decodeAll_append : ∀ (u v : List Nat),
    decodeAll (u ++ v) =
      ((decodeAll u).1 ++ (decodeAll ((decodeAll u).2 ++ v)).1,
       (decodeAll ((decodeAll u).2 ++ v)).2) := by
  intro u
  induction u using decodeAll.induct with
  | case1 => intro v; simp [da_nil]
  | case2 b1 bs h ih =>
    intro v
    rw [List.cons_append, da_none b1 (bs ++ v) h, da_none b1 bs h, ih]
  | case3 b1 bs acc k h hk =>
    intro v
    rw [da_pending b1 acc k bs h hk]
    simp
  | case4 b1 bs acc k h hk hc ih =>
    intro v
    have hkle : k ≤ bs.length := Nat.le_of_not_lt hk
    have htake : (bs ++ v).take k = bs.take k := List.take_append_of_le_length hkle
    have hdrop : (bs ++ v).drop k = bs.drop k ++ v := List.drop_append_of_le_length hkle
    have hk2 : ¬ (bs ++ v).length < k := by simp; omega
    rw [List.cons_append, da_valid b1 acc k (bs ++ v) h hk2 (by rw [htake]; exact hc)]
    rw [htake, hdrop, ih]
    rw [da_valid b1 acc k bs h hk hc]
    simp
  | case5 b1 bs acc k h hk hc ih =>
    intro v
    have hkle : k ≤ bs.length := Nat.le_of_not_lt hk
    have htake : (bs ++ v).take k = bs.take k := List.take_append_of_le_length hkle
    have hk2 : ¬ (bs ++ v).length < k := by simp; omega
    rw [List.cons_append, da_invalid b1 acc k (bs ++ v) h hk2 (by rw [htake]; exact hc)]
    rw [ih, da_invalid b1 acc k bs h hk hc]

theorem decodeAll_pending_stable : ∀ (x : List Nat),
    decodeAll (decodeAll x).2 = ([], (decodeAll x).2) := by
  intro x
  induction x using decodeAll.induct with
  | case1 => simp [da_nil]
  | case2 b1 bs h ih => rw [da_none b1 bs h]; exact ih
  | case3 b1 bs acc k h hk =>
    rw [da_pending b1 acc k bs h hk]
    exact da_pending b1 acc k bs h hk
  | case4 b1 bs acc k h hk hc ih =>
    rw [da_valid b1 acc k bs h hk hc]
    exact ih
  | case5 b1 bs acc k h hk hc ih =>
    rw [da_invalid b1 acc k bs h hk hc]
    exact ih

theorem hasNN_cons_true (c : Char) (rest : List Char) (h : hasNN rest = true) :
    hasNN (c :: rest) = true := by
  cases rest with
  | nil => simp [hasNN] at h
  | cons r1 rest' =>
    by_cases hc : c = '\n' ∧ r1 = '\n'
    · obtain ⟨h1, h2⟩ := hc
      subst h1; subst h2
      simp [hasNN]
    · rw [hasNN_cons2 c r1 rest' hc]
      exact h

theorem splitNN_of_no_terminator : ∀ (x : List Char), hasNN x = false → splitNN x = ([], x) := by
  intro x
  induction x using splitNN.induct with
  | case1 => intro _; simp [splitNN]
  | case2 rest ih => intro h; simp [hasNN] at h
  | case3 c rest h b heq ih =>
    intro _
    have hb : b = rest := by
      have := splitNN_nil_msgs rest (by rw [heq])
      rw [heq] at this; exact this
    cases rest with
    | nil => exact splitNN_one c
    | cons r1 rest' =>
      have hne : ¬(c = '\n' ∧ r1 = '\n') := fun hp => h rest' hp.1 (by rw [hp.2])
      rw [splitNN_cons2 c r1 rest' hne, heq, hb]
  | case4 c rest h m ms b heq ih =>
    intro hno
    have hrest : hasNN rest = false := by
      by_contra hcon
      have := hasNN_cons_true c rest (by
        cases hr : hasNN rest with
        | true => rfl
        | false => exact absurd hr hcon)
      rw [hno] at this
      exact Bool.false_ne_true this
    have := ih hrest
    rw [heq] at this
    simp at this

theorem splitNN_buffer_stable : ∀ (x : List Char),
    splitNN (splitNN x).2 = ([], (splitNN x).2) :=
  fun x => splitNN_of_no_terminator (splitNN x).2 (splitNN_buffer_no_terminator x)

theorem feedBytes_flatten : ∀ (bss : List (List Nat)) (p : List Nat) (buf : List Char)
    (s : StreamState), decodeAll p = ([], p) → splitNN buf = ([], buf) →
    feedBytes bss p buf s =
      ((decodeAll (p ++ bss.flatten)).2,
       (splitNN (buf ++ (decodeAll (p ++ bss.flatten)).1)).2,
       (processMessages (splitNN (buf ++ (decodeAll (p ++ bss.flatten)).1)).1 s).1,
       (processMessages (splitNN (buf ++ (decodeAll (p ++ bss.flatten)).1)).1 s).2) := by
  intro bss
  induction bss with
  | nil =>
    intro p buf s hp hbuf
    simp [feedBytes, hp, hbuf, processMessages]
  | cons bs rest ih =>
    intro p buf s hp hbuf
    rw [feedBytes]
    have hih := ih (decodeAll (p ++ bs)).2 (splitNN (buf ++ (decodeAll (p ++ bs)).1)).2
      (processMessages (splitNN (buf ++ (decodeAll (p ++ bs)).1)).1 s).1
      (decodeAll_pending_stable (p ++ bs)) (splitNN_buffer_stable (buf ++ (decodeAll (p ++ bs)).1))
    rw [hih]
    have hd : decodeAll (p ++ (bs :: rest).flatten) =
        ((decodeAll (p ++ bs)).1 ++ (decodeAll ((decodeAll (p ++ bs)).2 ++ rest.flatten)).1,
         (decodeAll ((decodeAll (p ++ bs)).2 ++ rest.flatten)).2) := by
      rw [List.flatten_cons, ← List.append_assoc]
      exact decodeAll_append (p ++ bs) rest.flatten
    rw [hd]
    have hs : splitNN (buf ++ ((decodeAll (p ++ bs)).1 ++ (decodeAll ((decodeAll (p ++ bs)).2 ++ rest.flatten)).1)) =
        ((splitNN (buf ++ (decodeAll (p ++ bs)).1)).1 ++
           (splitNN ((splitNN (buf ++ (decodeAll (p ++ bs)).1)).2 ++ (decodeAll ((decodeAll (p ++ bs)).2 ++ rest.flatten)).1)).1,
         (splitNN ((splitNN (buf ++ (decodeAll (p ++ bs)).1)).2 ++ (decodeAll ((decodeAll (p ++ bs)).2 ++ rest.flatten)).1)).2) := by
      rw [← List.append_assoc]
      exact splitNN_append (buf ++ (decodeAll (p ++ bs)).1) _
    rw [hs]
    rw [processMessages_append]

theorem dispatchEvent_flags (et ed : List Char) (s : StreamState) :
    ((dispatchEvent et ed s).1.isLoading = s.isLoading ∧
     (dispatchEvent et ed s).1.isComplete = s.isComplete) ∨
    (dispatchEvent et ed s).1.isLoading = false := by
  unfold dispatchEvent
  repeat' split
  all_goals simp

theorem processMessage_flags (m : List Char) (s : StreamState) :
    ((processMessage m s).1.isLoading = s.isLoading ∧
     (processMessage m s).1.isComplete = s.isComplete) ∨
    (processMessage m s).1.isLoading = false := by
  by_cases hC : (parseFrame m).1 = [] ∨ (parseFrame m).2 = []
  · left
    simp [processMessage, hC]
  · have : processMessage m s = dispatchEvent (parseFrame m).1 (parseFrame m).2 s := by
      simp [processMessage, hC]
    rw [this]
    exact dispatchEvent_flags (parseFrame m).1 (parseFrame m).2 s

theorem processMessage_skip (m : List Char) (s : StreamState)
    (h : (parseFrame m).1 = [] ∨ (parseFrame m).2 = []) :
    processMessage m s = (s, []) := by
  simp [processMessage, h]

theorem applyLine_no_event (acc : List Char × List Char) (l : List Char)
    (hl : List.isPrefixOf ("event:".toList) l = false) :
    (applyLine acc l).1 = acc.1 := by
  unfold applyLine
  rw [hl]
  simp only [Bool.false_eq_true, if_false]
  split <;> rfl

theorem applyLine_no_data (acc : List Char × List Char) (l : List Char)
    (hl : List.isPrefixOf ("data:".toList) l = false) :
    (applyLine acc l).2 = acc.2 := by
  unfold applyLine
  rw [hl]
  simp only [Bool.false_eq_true, if_false]
  split <;> rfl

theorem foldl_applyLine_no_event (lines : List (List Char)) (a b : List Char)
    (h : ∀ l ∈ lines, List.isPrefixOf ("event:".toList) l = false) :
    (lines.foldl applyLine (a, b)).1 = a := by
  induction lines generalizing a b with
  | nil => rfl
  | cons l rest ih =>
    have hl : List.isPrefixOf ("event:".toList) l = false := h l (by simp)
    have hrest : ∀ l2 ∈ rest, List.isPrefixOf ("event:".toList) l2 = false := by
      intro l2 hmem; exact h l2 (by simp [hmem])
    have hx : applyLine (a, b) l = (a, (applyLine (a, b) l).2) := by
      have h1 := applyLine_no_event (a, b) l hl
      exact Prod.ext h1 rfl
    rw [List.foldl_cons, hx]
    exact ih a _ hrest

theorem foldl_applyLine_no_data (lines : List (List Char)) (a b : List Char)
    (h : ∀ l ∈ lines, List.isPrefixOf ("data:".toList) l = false) :
    (lines.foldl applyLine (a, b)).2 = b := by
  induction lines generalizing a b with
  | nil => rfl
  | cons l rest ih =>
    have hl : List.isPrefixOf ("data:".toList) l = false := h l (by simp)
    have hrest : ∀ l2 ∈ rest, List.isPrefixOf ("data:".toList) l2 = false := by
      intro l2 hmem; exact h l2 (by simp [hmem])
    have hx : applyLine (a, b) l = ((applyLine (a, b) l).1, b) := by
      have h1 := applyLine_no_data (a, b) l hl
      exact Prod.ext rfl h1
    rw [List.foldl_cons, hx]
    exact ih _ b hrest

theorem processMessages_cons_skip (m : List Char) (ms : List (List Char)) (s : StreamState)
    (h : processMessage m s = (s, [])) :
    processMessages (m :: ms) s = processMessages ms s := by
  simp [processMessages, h]

/-- The states of one controller instance reachable by the operations of the
hook: the initial state, the prelude of `startStream`, per-message dispatch,
the terminal continuations of the read loop, `stopStream` and `reset`. -/
inductive Reachable : StreamState → Prop where
  | init : Reachable initialState
  | start (s : StreamState) : Reachable s → Reachable (startInit s)
  | msg (m : List Char) (s : StreamState) : Reachable s → Reachable (processMessage m s).1
  | finish (t : Terminal) (s : StreamState) : Reachable s → Reachable (finishRun t s).1
  | stop (s : StreamState) : Reachable s → Reachable (stopStream s)
  | doReset (s : StreamState) : Reachable s → Reachable (reset s)

/-- C1 counterexample: a `done` frame with absent data is discarded by the
`if (!eventType || !eventData) continue;` guard — it does not set
`isComplete`, does not clear `isLoading` and does not invoke the completion
callback, contrary to the claim that such a frame still completes. -/
theorem c1_counterexample :
    processMessage ("event: done".toList) { initialState with isLoading := true } =
      ({ initialState with isLoading := true }, []) ∧
    (processMessage ("event: done".toList) { initialState with isLoading := true }).1.isComplete
      = false := by
  exact ⟨rfl, rfl⟩

/-- C1 (amended): a `done` frame whose data decodes to a JSON object sets
`isLoading=false, isComplete=true` and forwards the object to the completion
callback; a `done` frame with non-empty data that is not an object sets the
same flags and invokes the completion callback with no payload; a frame whose
extracted data is empty — in particular a `done` frame with empty or absent
data — is discarded silently without completing. -/
theorem c1_done_events (s : StreamState) (d : List Char) (v : JSVal) :
    (jsParse d = some v → isObjVal v = true →
      dispatchEvent ("done".toList) d s =
        ({ s with isLoading := false, isComplete := true }, [Out.onComplete (some v)])) ∧
    (d ≠ [] → isObjVal (decodedVal d) = false →
      dispatchEvent ("done".toList) d s =
        ({ s with isLoading := false, isComplete := true }, [Out.onComplete none])) ∧
    (∀ (m : List Char), (parseFrame m).2 = [] → processMessage m s = (s, [])) := by
  refine ⟨?_, ?_, ?_⟩
  · intro hp ho
    simp [dispatchEvent, decodedVal, hp, ho]
  · intro _ ho
    simp [dispatchEvent, ho]
  · intro m hm
    exact processMessage_skip m s (Or.inr hm)

theorem c1_done_events_witness :
    jsParse ("\x7b\"id\":\"doc2\"\x7d".toList) =
        some (JSVal.obj [("id".toList, JSVal.str ("doc2".toList))]) ∧
    isObjVal (JSVal.obj [("id".toList, JSVal.str ("doc2".toList))]) = true ∧
    ("fin".toList : List Char) ≠ [] ∧
    isObjVal (decodedVal ("fin".toList)) = false ∧
    dispatchEvent ("done".toList) ("\x7b\"id\":\"doc2\"\x7d".toList) initialState =
      ({ initialState with isLoading := false, isComplete := true },
       [Out.onComplete (some (JSVal.obj [("id".toList, JSVal.str ("doc2".toList))]))]) ∧
    dispatchEvent ("done".toList) ("fin".toList) initialState =
      ({ initialState with isLoading := false, isComplete := true }, [Out.onComplete none]) ∧
    processMessage ("event: done".toList) initialState = (initialState, []) := by
  refine ⟨rfl, rfl, by decide, rfl, ?_, ?_, ?_⟩
  · exact (c1_done_events initialState _ _).1 rfl rfl
  · exact (c1_done_events initialState ("fin".toList) JSVal.null).2.1 (by decide) rfl
  · exact (c1_done_events initialState [] JSVal.null).2.2 ("event: done".toList) rfl

/-- C2 counterexample: the end-of-body branch sets `isComplete=true`
unconditionally, even after a terminal `error` event — after an `error`
frame with data `index failed` and body exhaustion, `isComplete` is `true`,
not `false` as claimed; and a `token` frame arriving after an `error` frame
still mutates the state (`tokens` becomes `x`). -/
theorem c2_counterexample :
    (runStream ["event: error\ndata: index failed\n\n".toList] Terminal.bodyEnd).1.isComplete
      = true ∧
    (runStream ["event: error\ndata: e1\n\nevent: token\ndata: x\n\n".toList]
        Terminal.bodyEnd).1.tokens = "x".toList := by
  exact ⟨rfl, rfl⟩

/-- C2 (amended): an `error` event sets the error field and clears
`isLoading` but leaves `isComplete` as it was; later events may still mutate
the state, and exhaustion of the response body afterwards still sets
`isLoading=false, isComplete=true` — there is no guard for a prior terminal
error — so after an `error` frame with data `index failed` followed by
end-of-body, the final state has `error == some "index failed"`,
`isLoading = false` and `isComplete = true`. -/
theorem c2_error_then_exhaustion :
    (∀ (s : StreamState) (d : List Char),
      dispatchEvent ("error".toList) d s =
        ({ s with error := some (textOf d), isLoading := false }, [Out.onError (textOf d)])) ∧
    (∀ (s : StreamState),
      (finishRun Terminal.bodyEnd s).1 = { s with isLoading := false, isComplete := true }) ∧
    runStream ["event: error\ndata: index failed\n\n".toList] Terminal.bodyEnd =
      ({ isLoading := false, error := some ("index failed".toList), status := none,
         reasoning := none, citations := [], tokens := [], isComplete := true },
       [Out.onError ("index failed".toList)]) := by
  refine ⟨?_, ?_, rfl⟩
  · intro s d
    simp [dispatchEvent]
  · intro s
    rfl

/-- C3: for every well-formed frame stream and every partition of its UTF-8
bytes into chunks — including splits mid-line, mid-delimiter or inside a
multi-byte character — feeding the chunks in order produces exactly the same
final decoder state, buffer, stream state and ordered dispatched callbacks as
feeding the whole body as one chunk; moreover the last segment after
splitting on the blank-line terminator is preserved verbatim as the new
buffer (the split reconstructs the input and the buffer holds no
terminator). -/
theorem c3_split_invariance (s : List Char) (bss : List (List Nat)) (st : StreamState) :
    bss.flatten = utf8Encode s →
    feedBytes bss [] [] st = feedBytes [utf8Encode s] [] [] st ∧
    (∀ (buf chunk : List Char),
      joinNN (splitNN (buf ++ chunk)).1 (splitNN (buf ++ chunk)).2 = buf ++ chunk ∧
      hasNN (splitNN (buf ++ chunk)).2 = false) := by
  intro h
  constructor
  · rw [feedBytes_flatten bss [] [] st da_nil rfl,
      feedBytes_flatten [utf8Encode s] [] [] st da_nil rfl, h]
    simp
  · intro buf chunk
    exact ⟨splitNN_joinNN (buf ++ chunk), splitNN_buffer_no_terminator (buf ++ chunk)⟩

theorem c3_split_invariance_witness :
    ([[101, 118, 101, 110, 116, 58, 32, 116, 111, 107, 101, 110, 10, 100, 97, 116, 97, 58,
       32, 195], [169, 226, 156], [147, 10, 10]] : List (List Nat)).flatten =
      utf8Encode ("event: token\ndata: é✓\n\n".toList) ∧
    (feedBytes [[101, 118, 101, 110, 116, 58, 32, 116, 111, 107, 101, 110, 10, 100, 97, 116,
        97, 58, 32, 195], [169, 226, 156], [147, 10, 10]] [] [] initialState =
      feedBytes [utf8Encode ("event: token\ndata: é✓\n\n".toList)] [] [] initialState ∧
    (∀ (buf chunk : List Char),
      joinNN (splitNN (buf ++ chunk)).1 (splitNN (buf ++ chunk)).2 = buf ++ chunk ∧
      hasNN (splitNN (buf ++ chunk)).2 = false)) := by
  refine ⟨by decide, ?_⟩
  exact c3_split_invariance ("event: token\ndata: é✓\n\n".toList) _ initialState (by decide)

/-- C4: a `token` event appends its string payload to `tokens` and changes no
other field; `status` and `reasoning` events overwrite their respective field
with the latest payload and change no other field.  Concretely, three `token`
frames with JSON-encoded data `"Hel"`, `"lo "`, `"world"` yield final
`tokens == "Hello world"`, and two `status` frames `searching` then `done`
yield final `status == some "done"`, not a concatenation. -/
theorem c4_token_append_status_overwrite (s : StreamState) (d : List Char) :
    ((dispatchEvent ("token".toList) d s).1.tokens = s.tokens ++ textOf d ∧
     (dispatchEvent ("token".toList) d s).1.isLoading = s.isLoading ∧
     (dispatchEvent ("token".toList) d s).1.error = s.error ∧
     (dispatchEvent ("token".toList) d s).1.status = s.status ∧
     (dispatchEvent ("token".toList) d s).1.reasoning = s.reasoning ∧
     (dispatchEvent ("token".toList) d s).1.citations = s.citations ∧
     (dispatchEvent ("token".toList) d s).1.isComplete = s.isComplete) ∧
    ((dispatchEvent ("status".toList) d s).1.status = some (textOf d) ∧
     (dispatchEvent ("status".toList) d s).1.isLoading = s.isLoading ∧
     (dispatchEvent ("status".toList) d s).1.error = s.error ∧
     (dispatchEvent ("status".toList) d s).1.reasoning = s.reasoning ∧
     (dispatchEvent ("status".toList) d s).1.citations = s.citations ∧
     (dispatchEvent ("status".toList) d s).1.tokens = s.tokens ∧
     (dispatchEvent ("status".toList) d s).1.isComplete = s.isComplete) ∧
    ((dispatchEvent ("reasoning".toList) d s).1.reasoning = some (textOf d) ∧
     (dispatchEvent ("reasoning".toList) d s).1.isLoading = s.isLoading ∧
     (dispatchEvent ("reasoning".toList) d s).1.error = s.error ∧
     (dispatchEvent ("reasoning".toList) d s).1.status = s.status ∧
     (dispatchEvent ("reasoning".toList) d s).1.citations = s.citations ∧
     (dispatchEvent ("reasoning".toList) d s).1.tokens = s.tokens ∧
     (dispatchEvent ("reasoning".toList) d s).1.isComplete = s.isComplete) ∧
    (processMessages ["event: token\ndata: \"Hel\"".toList,
        "event: token\ndata: \"lo \"".toList,
        "event: token\ndata: \"world\"".toList] initialState).1.tokens
      = "Hello world".toList ∧
    (processMessages ["event: status\ndata: searching".toList,
        "event: status\ndata: done".toList] initialState).1.status
      = some ("done".toList) := by
  refine ⟨?_, ?_, ?_, rfl, rfl⟩
  · simp [dispatchEvent]
  · simp [dispatchEvent]
  · simp [dispatchEvent]

/-- C5: `stopStream` is idempotent and safe with no active stream — it sets
`isLoading=false` and leaves every other field unchanged; a caught abort
terminates the loop without populating the error field and without invoking
`onError`, so stopping during an active read (error still unset, turn not
complete) leaves `isLoading = false`, `error = none`, `isComplete = false`. -/
theorem c5_stop_idempotent_abort_clean (s : StreamState) :
    stopStream (stopStream s) = stopStream s ∧
    (stopStream s).isLoading = false ∧
    (stopStream s).error = s.error ∧
    (stopStream s).status = s.status ∧
    (stopStream s).reasoning = s.reasoning ∧
    (stopStream s).citations = s.citations ∧
    (stopStream s).tokens = s.tokens ∧
    (stopStream s).isComplete = s.isComplete ∧
    finishRun Terminal.aborted s = ({ s with isLoading := false }, []) ∧
    (s.error = none → s.isComplete = false →
      (finishRun Terminal.aborted s).1.isLoading = false ∧
      (finishRun Terminal.aborted s).1.error = none ∧
      (finishRun Terminal.aborted s).1.isComplete = false ∧
      (finishRun Terminal.aborted s).2 = []) := by
  refine ⟨rfl, rfl, rfl, rfl, rfl, rfl, rfl, rfl, rfl, ?_⟩
  intro he hc
  exact ⟨rfl, he, hc, rfl⟩

theorem c5_stop_idempotent_abort_clean_witness :
    ({ initialState with isLoading := true } : StreamState).error = none ∧
    ({ initialState with isLoading := true } : StreamState).isComplete = false ∧
    (finishRun Terminal.aborted { initialState with isLoading := true }).1.isLoading = false ∧
    (finishRun Terminal.aborted { initialState with isLoading := true }).1.error = none ∧
    (finishRun Terminal.aborted { initialState with isLoading := true }).1.isComplete = false ∧
    (finishRun Terminal.aborted { initialState with isLoading := true }).2 = [] := by
  have h := (c5_stop_idempotent_abort_clean { initialState with isLoading := true }).2.2.2.2.2.2.2.2.2
    rfl rfl
  exact ⟨rfl, rfl, h.1, h.2.1, h.2.2.1, h.2.2.2⟩

/-- C6: calling `startStream` while a prior stream is active first cancels it
and resets the state, so the new stream always begins from the initial state
with only `isLoading` set, whatever the prior stream left behind; the entire
run of the new stream is therefore independent of the superseded stream's
state, and a run aborted after its first `k` chunks is determined by those
chunks alone — frames beyond the abort point never reach the dispatcher. -/
theorem c6_supersession (sPrior sPrior2 : StreamState) (chunks : List (List Char))
    (t : Terminal) :
    startInit sPrior = { initialState with isLoading := true } ∧
    runStreamFrom (startInit sPrior) chunks t = runStreamFrom (startInit sPrior2) chunks t ∧
    (∀ (k : Nat) (ch1 ch2 : List (List Char)), ch1.take k = ch2.take k →
      runStreamFrom (startInit sPrior) (ch1.take k) Terminal.aborted =
        runStreamFrom (startInit sPrior) (ch2.take k) Terminal.aborted) := by
  refine ⟨rfl, rfl, ?_⟩
  intro k ch1 ch2 h
  rw [h]

theorem c6_supersession_witness :
    (["x".toList] : List (List Char)).take 1 =
      (["x".toList, "y".toList] : List (List Char)).take 1 ∧
    runStreamFrom (startInit initialState) ((["x".toList] : List (List Char)).take 1)
        Terminal.aborted =
      runStreamFrom (startInit initialState)
        ((["x".toList, "y".toList] : List (List Char)).take 1) Terminal.aborted := by
  refine ⟨rfl, ?_⟩
  exact (c6_supersession initialState initialState [] Terminal.bodyEnd).2.2 1
    ["x".toList] ["x".toList, "y".toList] rfl

/-- C7: a `citation` frame whose data decodes to a JSON object appends
exactly one entry to `citations` and invokes `onCitation` exactly once; a
`citation` frame whose data is not an object — for example the string
`"not-an-object"` — leaves the state (including `error`) unchanged and is
logged and dropped, not fatal. -/
theorem c7_citation_handling (s : StreamState) (d : List Char) (v : JSVal) :
    (jsParse d = some v → isObjVal v = true →
      dispatchEvent ("citation".toList) d s =
        ({ s with citations := s.citations ++ [v] }, [Out.onCitation v])) ∧
    (isObjVal (decodedVal d) = false →
      dispatchEvent ("citation".toList) d s = (s, [Out.logCitationError d])) ∧
    dispatchEvent ("citation".toList) ("\"not-an-object\"".toList) s =
      (s, [Out.logCitationError ("\"not-an-object\"".toList)]) := by
  have hgen : ∀ (s0 : StreamState) (d0 : List Char), isObjVal (decodedVal d0) = false →
      dispatchEvent ("citation".toList) d0 s0 = (s0, [Out.logCitationError d0]) := by
    intro s0 d0 ho
    simp [dispatchEvent, ho]
  refine ⟨?_, hgen s d, hgen s ("\"not-an-object\"".toList) rfl⟩
  intro hp ho
  simp [dispatchEvent, decodedVal, hp, ho]

theorem c7_citation_handling_witness :
    jsParse ("\x7b\"page\":3,\"score\":0.82,\"document_id\":\"doc1\"\x7d".toList) =
      some (JSVal.obj [("page".toList, JSVal.num ("3".toList)),
        ("score".toList, JSVal.num ("0.82".toList)),
        ("document_id".toList, JSVal.str ("doc1".toList))]) ∧
    isObjVal (JSVal.obj [("page".toList, JSVal.num ("3".toList)),
      ("score".toList, JSVal.num ("0.82".toList)),
      ("document_id".toList, JSVal.str ("doc1".toList))]) = true ∧
    dispatchEvent ("citation".toList)
        ("\x7b\"page\":3,\"score\":0.82,\"document_id\":\"doc1\"\x7d".toList) initialState =
      ({ initialState with citations := initialState.citations ++
          [JSVal.obj [("page".toList, JSVal.num ("3".toList)),
            ("score".toList, JSVal.num ("0.82".toList)),
            ("document_id".toList, JSVal.str ("doc1".toList))]] },
       [Out.onCitation (JSVal.obj [("page".toList, JSVal.num ("3".toList)),
          ("score".toList, JSVal.num ("0.82".toList)),
          ("document_id".toList, JSVal.str ("doc1".toList))])]) := by
  refine ⟨rfl, rfl, ?_⟩
  exact (c7_citation_handling initialState _ _).1 rfl rfl

/-- C8: a complete frame from which no `event:` line or no `data:` line can
be extracted is discarded silently — no state change, no callback — and its
presence between other messages does not affect their processing. -/
theorem c8_incomplete_frame_dropped (m : List Char) (s : StreamState) :
    ((∀ l ∈ splitNl (trimChars m), List.isPrefixOf ("event:".toList) l = false) ∨
     (∀ l ∈ splitNl (trimChars m), List.isPrefixOf ("data:".toList) l = false)) →
    processMessage m s = (s, []) ∧
    (∀ (ms1 ms2 : List (List Char)) (s0 : StreamState),
      processMessages (ms1 ++ m :: ms2) s0 = processMessages (ms1 ++ ms2) s0) := by
  intro h
  have hskip : ∀ (x : StreamState), processMessage m x = (x, []) := by
    intro x
    apply processMessage_skip
    cases h with
    | inl he =>
      exact Or.inl (foldl_applyLine_no_event (splitNl (trimChars m)) [] [] he)
    | inr hd =>
      exact Or.inr (foldl_applyLine_no_data (splitNl (trimChars m)) [] [] hd)
  refine ⟨hskip s, ?_⟩
  intro ms1 ms2 s0
  rw [processMessages_append ms1 (m :: ms2) s0,
    processMessages_cons_skip m ms2 _ (hskip _),
    ← processMessages_append ms1 ms2 s0]

theorem c8_incomplete_frame_dropped_witness :
    ((∀ l ∈ splitNl (trimChars ("data: hi".toList)),
        List.isPrefixOf ("event:".toList) l = false) ∨
     (∀ l ∈ splitNl (trimChars ("data: hi".toList)),
        List.isPrefixOf ("data:".toList) l = false)) ∧
    processMessage ("data: hi".toList) initialState = (initialState, []) ∧
    processMessages (["event: status\ndata: a".toList] ++
        "data: hi".toList :: ["event: token\ndata: b".toList]) initialState =
      processMessages (["event: status\ndata: a".toList] ++
        ["event: token\ndata: b".toList]) initialState := by
  have h : (∀ l ∈ splitNl (trimChars ("data: hi".toList)),
      List.isPrefixOf ("event:".toList) l = false) ∨
      (∀ l ∈ splitNl (trimChars ("data: hi".toList)),
        List.isPrefixOf ("data:".toList) l = false) := Or.inl (by decide)
  have hc := c8_incomplete_frame_dropped ("data: hi".toList) initialState h
  exact ⟨h, hc.1, hc.2 ["event: status\ndata: a".toList]
    ["event: token\ndata: b".toList] initialState⟩

/-- C9: in every reachable stream state — the initial state and anything
obtained by dispatching events, finishing the read loop, stopping, resetting
or starting a new stream — `isLoading` and `isComplete` are never
simultaneously true. -/
theorem c9_loading_complete_exclusive (s : StreamState) :
    Reachable s → ¬ (s.isLoading = true ∧ s.isComplete = true) := by
  intro h
  induction h with
  | init => simp [initialState]
  | start s' _ _ => simp [startInit, reset, stopStream, initialState]
  | msg m s' _ ih =>
    rcases processMessage_flags m s' with ⟨h1, h2⟩ | h1
    · rw [h1, h2]; exact ih
    · rw [h1]; simp
  | finish t s' _ ih =>
    cases t with
    | bodyEnd => simp [finishRun]
    | aborted => simp [finishRun]
    | failed msg => simp [finishRun]
  | stop s' _ _ => simp [stopStream]
  | doReset s' _ _ => simp [reset, initialState]

theorem c9_loading_complete_exclusive_witness :
    Reachable (startInit initialState) ∧
    ¬ ((startInit initialState).isLoading = true ∧
       (startInit initialState).isComplete = true) :=
  ⟨Reachable.start initialState Reachable.init,
   c9_loading_complete_exclusive (startInit initialState)
     (Reachable.start initialState Reachable.init)⟩

/-- C10: a `citation` frame whose data parses to a JSON array — for example
`[1,2,3]` — passes the `typeof parsedData === "object" && parsedData !== null`
guard, because arrays have `typeof` `"object"` in JavaScript: it is appended
to `citations` and forwarded to `onCitation` rather than being dropped as
malformed. -/
theorem c10_array_passes_object_guard (s : StreamState) :
    jsParse ("[1,2,3]".toList) =
      some (JSVal.arr [JSVal.num ("1".toList), JSVal.num ("2".toList),
        JSVal.num ("3".toList)]) ∧
    isObjVal (JSVal.arr [JSVal.num ("1".toList), JSVal.num ("2".toList),
      JSVal.num ("3".toList)]) = true ∧
    dispatchEvent ("citation".toList) ("[1,2,3]".toList) s =
      ({ s with citations := s.citations ++
          [JSVal.arr [JSVal.num ("1".toList), JSVal.num ("2".toList),
            JSVal.num ("3".toList)]] },
       [Out.onCitation (JSVal.arr [JSVal.num ("1".toList), JSVal.num ("2".toList),
          JSVal.num ("3".toList)])]) := by
  have hgen : ∀ (s0 : StreamState) (d0 : List Char) (v0 : JSVal), jsParse d0 = some v0 →
      isObjVal v0 = true →
      dispatchEvent ("citation".toList) d0 s0 =
        ({ s0 with citations := s0.citations ++ [v0] }, [Out.onCitation v0]) := by
    intro s0 d0 v0 hp ho
    simp [dispatchEvent, decodedVal, hp, ho]
  exact ⟨rfl, rfl, hgen s ("[1,2,3]".toList) _ rfl rfl⟩
